import Mathlib

/-!
# Weiney/freedom : general/requests/fast_request.go

A shallow embedding of the `FastRequest` builder: the query-string assembly of `URI()`,
the configuration calls, `do()`, the four terminal operations with their deferred
cleanup, and the header flattening of `httpRespone`.

Conventions of the embedding.

* A Go `string` is a list of characters (`Str`).  A Go `[]byte` is `Bytes`, an optional
  list over the same carrier, `none` being the nil slice, so that `string(b)` keeps the
  contents.
* A Go pointer field is an `Option`; `none` is the nil pointer.  A function returns
  `none` when the Go code panics on a nil pointer dereference.
* A Go `map[string]T` is an association list with pairwise different keys, written to by
  `GoMap.set`.  The order in which `range` visits a map is not fixed by the language; it
  is the `rangeOrder` component of the `Runtime`.
* The collaborators that are not part of the repository (`fmt.Sprint`, the `fasthttp`
  client, `encoding/json`, `encoding/xml`) are components of `Runtime` or parameters.
-/

namespace requests

/-! # Definitions -/

/-- A Go string. -/
abbrev Str := List Char

/-- A Go byte slice; `none` is the nil slice. -/
abbrev Bytes := Option (List Char)

/-- The conversion `string(b)`. -/
def Bytes.toStr : Bytes → Str
  | none => []
  | some b => b

/-- The builtin `len(b)`. -/
def Bytes.len (b : Bytes) : Nat := b.toStr.length

/-- A Go `error` value, observed through its `Error()` text. -/
structure GoError where
  msg : Str
  deriving DecidableEq

/-- A Go map with string keys, as an association list. -/
abbrev GoMap (T : Type) := List (Str × T)

/-- The assignment `m[key] = value`: overwrite the entry of `key`, or add one. -/
def GoMap.set {T : Type} : GoMap T → Str → T → GoMap T
  | [], key, value => [(key, value)]
  | (k, v) :: rest, key, value =>
    if k = key then (key, value) :: rest else (k, v) :: GoMap.set rest key value

/-- The lookup `m[key]` with its presence flag. -/
def GoMap.get {T : Type} : GoMap T → Str → Option T
  | [], _ => none
  | (k, v) :: rest, key => if k = key then some v else GoMap.get rest key

/-- The keys of a map. -/
def GoMap.keys {T : Type} (m : GoMap T) : List Str := m.map Prod.fst

/-- The call `strings.Split(s, sep)` for a separator of one character. -/
def Split (sep : Char) : Str → List Str
  | [] => [[]]
  | c :: cs =>
    if c = sep then [] :: Split sep cs
    else match Split sep cs with
      | [] => [[c]]
      | p :: ps => (c :: p) :: ps

/-- The verb `%d` of package `fmt` applied to an `int`. -/
def fmtD : Int → Str
  | Int.ofNat n => Nat.toDigits 10 n
  | Int.negSucc n => '-' :: Nat.toDigits 10 (n + 1)

namespace fasthttp

/-- The part of `fasthttp.Request` that the builder writes. -/
structure Request where
  method : Str
  header : GoMap Str
  body : Str
  contentLength : Int
  contentType : Str
  requestURI : Str
  deriving DecidableEq

/-- The part of `fasthttp.Response` that the builder reads.  `visited` is the sequence of
key/value pairs that `Header.VisitAll` hands to its callback, in order. -/
structure Response where
  statusCode : Int
  isHTTP11 : Bool
  contentLength : Int
  contentType : Bytes
  visited : List (Bytes × Bytes)
  body : Bytes
  deriving DecidableEq

/-- What `fasthttp.AcquireRequest()` hands out: a reset request. -/
def AcquireRequest : Request :=
  { method := [], header := [], body := [], contentLength := 0, contentType := [],
    requestURI := [] }

/-- What `fasthttp.AcquireResponse()` hands out: a reset response. -/
def AcquireResponse : Response :=
  { statusCode := 200, isHTTP11 := true, contentLength := 0, contentType := none,
    visited := [], body := none }

end fasthttp

/-- Modelled from the spec: the `Response` summary type of package `requests`, whose
declaration is not in the source file: StatusCode (int), HTTP1.1 flag (bool),
ContentLength (int64), ContentType (string), Header (mapping string to string). -/
structure Response where
  StatusCode : Int
  HTTP11 : Bool
  ContentLength : Int
  ContentType : Str
  Header : GoMap Str
  deriving DecidableEq

/-- The observable state outside the builder: how often each pool got an object back, and
the requests handed to `fclient.Do`, latest first. -/
structure World where
  requestReleases : Nat
  responseReleases : Nat
  sent : List fasthttp.Request
  deriving DecidableEq

/-- The collaborators of the builder.  `Sprint` is `fmt.Sprint` on parameter values,
`rangeOrder` the order in which `range` visits the entries of the parameter map, `Do`
the round trip of `fclient.Do`: from the request and the response object it is given to
the error it returns and the response object as it leaves it. -/
structure Runtime (V : Type) where
  Sprint : V → Str
  rangeOrder : GoMap V → List (Str × V)
  Do : fasthttp.Request → fasthttp.Response → Option GoError × fasthttp.Response

/-- The struct `FastRequest`. -/
structure FastRequest (V : Type) where
  resq : Option fasthttp.Request
  resp : Option fasthttp.Response
  reqe : Option GoError
  params : GoMap V
  url : Str

/-- The factory `NewFastRequest`. -/
def NewFastRequest {V : Type} (uri : Str) : FastRequest V :=
  { resq := some fasthttp.AcquireRequest
    resp := some fasthttp.AcquireResponse
    reqe := none
    params := []
    url := uri }

namespace FastRequest

variable {V : Type}

/-- The body of the `range` loop of `URI`, run over the entries in the order they are
visited, on the loop state `(uri, index)`. -/
def uriLoop (Sprint : V → Str) : List (Str × V) → Str → Nat → Str
  | [], uri, _ => uri
  | (key, value) :: rest, uri, index =>
    let uri := if index > 0 then uri ++ ['&'] else uri
    let uri := uri ++ (key ++ ['='] ++ Sprint value)
    uriLoop Sprint rest uri (index + 1)

/-- The method `URI`. -/
def URI (rt : Runtime V) (fr : FastRequest V) : Str :=
  let result := fr.url
  if fr.params.length > 0 then
    let uris := Split '?' result
    let uri := if uris.length > 1 then uris.getD 1 [] else []
    let uri := uriLoop rt.Sprint (rt.rangeOrder fr.params) uri 0
    uris.getD 0 [] ++ ['?'] ++ uri
  else result

/-- The method `SetParam`. -/
def SetParam (fr : FastRequest V) (key : Str) (value : V) : FastRequest V :=
  { fr with params := GoMap.set fr.params key value }

/-- The method `Post`. -/
def Post (fr : FastRequest V) : Option (FastRequest V) :=
  match fr.resq with
  | none => none
  | some rq => some { fr with resq := some { rq with method := "POST".toList } }

/-- The method `Put`. -/
def Put (fr : FastRequest V) : Option (FastRequest V) :=
  match fr.resq with
  | none => none
  | some rq => some { fr with resq := some { rq with method := "PUT".toList } }

/-- The method `Get`. -/
def Get (fr : FastRequest V) : Option (FastRequest V) :=
  match fr.resq with
  | none => none
  | some rq => some { fr with resq := some { rq with method := "GET".toList } }

/-- The method `Delete`. -/
def Delete (fr : FastRequest V) : Option (FastRequest V) :=
  match fr.resq with
  | none => none
  | some rq => some { fr with resq := some { rq with method := "DELETE".toList } }

/-- The method `SetJSONBody`; `Marshal` is `json.Marshal`, returning the pair
`(byts, e)`. -/
def SetJSONBody {J : Type} (Marshal : J → Bytes × Option GoError) (fr : FastRequest V)
    (obj : J) : Option (FastRequest V) :=
  match Marshal obj with
  | (_, some e) => some { fr with reqe := some e }
  | (byts, none) =>
    match fr.resq with
    | none => none
    | some rq =>
      some { fr with resq := some { rq with
        body := byts.toStr
        contentLength := (byts.len : Int)
        contentType := "application/json".toList } }

/-- The method `SetBody`. -/
def SetBody (fr : FastRequest V) (byts : Bytes) : Option (FastRequest V) :=
  match fr.resq with
  | none => none
  | some rq =>
    some { fr with resq := some { rq with
      body := byts.toStr
      contentLength := (byts.len : Int)
      contentType := "application/x-www-form-urlencoded".toList } }

/-- The method `SetHeader`. -/
def SetHeader (fr : FastRequest V) (key value : Str) : Option (FastRequest V) :=
  match fr.resq with
  | none => none
  | some rq => some { fr with resq := some { rq with header := GoMap.set rq.header key value } }

/-- The method `do`: the error it returns, the builder and the world after it. -/
def do_ (rt : Runtime V) (fr : FastRequest V) (w : World) :
    Option (Option GoError × FastRequest V × World) :=
  match fr.reqe with
  | some e => some (some e, fr, w)
  | none =>
    match fr.resq, fr.resp with
    | some rq, some rp =>
      let rq := { rq with requestURI := fr.URI rt }
      let out := rt.Do rq rp
      let fr := { fr with resq := some rq, resp := some out.2 }
      let w := { w with sent := rq :: w.sent }
      match out.1 with
      | some err => some (some err, fr, w)
      | none =>
        let code := out.2.statusCode
        if code ≥ 400 then
          some (some ⟨"The FastRequested URL returned error: ".toList ++ fmtD code⟩, fr, w)
        else some (none, fr, w)
    | _, _ => none

/-- The method `httpRespone`: the summary after the call. -/
def httpRespone (fr : FastRequest V) (httpRespone : Response) : Option Response :=
  match fr.resp with
  | none => none
  | some rp =>
    let httpRespone := { httpRespone with StatusCode := rp.statusCode }
    let httpRespone := { httpRespone with HTTP11 := rp.isHTTP11 }
    let httpRespone := { httpRespone with ContentLength := rp.contentLength }
    let httpRespone := { httpRespone with ContentType := rp.contentType.toStr }
    let httpRespone := { httpRespone with Header := [] }
    some { httpRespone with
      Header := rp.visited.foldl (fun m kv => GoMap.set m kv.1.toStr kv.2.toStr)
        httpRespone.Header }

/-- The statement `if len(httpRespones) > 0 { fr.httpRespone(httpRespones[0]) }` on the
summaries the variadic argument points to. -/
def fillFirst (fr : FastRequest V) : List Response → Option (List Response)
  | [] => some []
  | h :: rest => (fr.httpRespone h).map fun h => h :: rest

/-- The deferred function of the four terminal operations. -/
def cleanup (fr : FastRequest V) (w : World) : Option (FastRequest V × World) :=
  match fr.resq with
  | none => none
  | some _ =>
    let w := { w with requestReleases := w.requestReleases + 1 }
    match fr.resp with
    | none => none
    | some _ =>
      let w := { w with responseReleases := w.responseReleases + 1 }
      let fr := { fr with resq := none }
      let fr := { fr with resq := none }
      some (fr, w)

end FastRequest

/-- How a terminal operation returns: its result `value` (for `ToJSON` and `ToXML` the
target it was given, as the call leaves it), its error `e`, the summaries behind the
variadic argument, the builder and the world. -/
structure Exit (V α : Type) where
  value : α
  e : Option GoError
  httpRespones : List Response
  fr : FastRequest V
  world : World

namespace FastRequest

variable {V : Type}

/-- The method `ToJSON`; `Unmarshal` is `json.Unmarshal` on the body and the target. -/
def ToJSON {T : Type} (rt : Runtime V) (Unmarshal : Bytes → T → T × Option GoError)
    (fr : FastRequest V) (obj : T) (httpRespones : List Response) (w : World) :
    Option (Exit V T) := do
  let (e, fr, w) ← fr.do_ rt w
  if e.isSome then
    let (fr, w) ← fr.cleanup w
    return { value := obj, e := e, httpRespones := httpRespones, fr := fr, world := w }
  let httpRespones ← fr.fillFirst httpRespones
  let rp ← fr.resp
  let out := Unmarshal rp.body obj
  let (fr, w) ← fr.cleanup w
  return { value := out.1, e := out.2, httpRespones := httpRespones, fr := fr, world := w }

/-- The method `ToString`. -/
def ToString (rt : Runtime V) (fr : FastRequest V) (httpRespones : List Response)
    (w : World) : Option (Exit V Str) := do
  let (e, fr, w) ← fr.do_ rt w
  if e.isSome then
    let (fr, w) ← fr.cleanup w
    return { value := [], e := e, httpRespones := httpRespones, fr := fr, world := w }
  let httpRespones ← fr.fillFirst httpRespones
  let rp ← fr.resp
  let value := rp.body.toStr
  let (fr, w) ← fr.cleanup w
  return { value := value, e := e, httpRespones := httpRespones, fr := fr, world := w }

/-- The method `ToBytes`. -/
def ToBytes (rt : Runtime V) (fr : FastRequest V) (httpRespones : List Response)
    (w : World) : Option (Exit V Bytes) := do
  let (e, fr, w) ← fr.do_ rt w
  if e.isSome then
    let (fr, w) ← fr.cleanup w
    return { value := none, e := e, httpRespones := httpRespones, fr := fr, world := w }
  let httpRespones ← fr.fillFirst httpRespones
  let rp ← fr.resp
  let value := rp.body
  let (fr, w) ← fr.cleanup w
  return { value := value, e := e, httpRespones := httpRespones, fr := fr, world := w }

/-- The method `ToXML`; `Unmarshal` is `xml.Unmarshal` on the body and the target. -/
def ToXML {T : Type} (rt : Runtime V) (Unmarshal : Bytes → T → T × Option GoError)
    (fr : FastRequest V) (v : T) (httpRespones : List Response) (w : World) :
    Option (Exit V T) := do
  let (e, fr, w) ← fr.do_ rt w
  if e.isSome then
    let (fr, w) ← fr.cleanup w
    return { value := v, e := e, httpRespones := httpRespones, fr := fr, world := w }
  let httpRespones ← fr.fillFirst httpRespones
  let rp ← fr.resp
  let out := Unmarshal rp.body v
  let (fr, w) ← fr.cleanup w
  return { value := out.1, e := out.2, httpRespones := httpRespones, fr := fr, world := w }

end FastRequest

/-- One configuration call of the fluent interface. -/
inductive Config (V J : Type) where
  | Post
  | Put
  | Get
  | Delete
  | SetJSONBody (obj : J)
  | SetBody (byts : Bytes)
  | SetParam (key : Str) (value : V)
  | SetHeader (key value : Str)

/-- Make one configuration call on a builder. -/
def Config.call {V J : Type} (Marshal : J → Bytes × Option GoError) :
    Config V J → FastRequest V → Option (FastRequest V)
  | Config.Post, fr => fr.Post
  | Config.Put, fr => fr.Put
  | Config.Get, fr => fr.Get
  | Config.Delete, fr => fr.Delete
  | Config.SetJSONBody obj, fr => fr.SetJSONBody Marshal obj
  | Config.SetBody byts, fr => fr.SetBody byts
  | Config.SetParam key value, fr => some (fr.SetParam key value)
  | Config.SetHeader key value, fr => fr.SetHeader key value

/-- Make a chain of configuration calls, first call first. -/
def Config.chain {V J : Type} (Marshal : J → Bytes × Option GoError) :
    List (Config V J) → FastRequest V → Option (FastRequest V)
  | [], fr => some fr
  | c :: cs, fr => (c.call Marshal fr).bind (Config.chain Marshal cs)

/-- Whether a configuration call is a `SetJSONBody` whose serialization fails. -/
def Config.failing {V J : Type} (Marshal : J → Bytes × Option GoError) : Config V J → Bool
  | Config.SetJSONBody obj => (Marshal obj).2.isSome
  | _ => false

/-- Whether a configuration call is a `SetParam`. -/
def Config.isSetParam {V J : Type} : Config V J → Bool
  | Config.SetParam _ _ => true
  | _ => false

namespace FastRequest

variable {V : Type}

/-- The world after the deferred function has run on `w`. -/
def released (w : World) : World :=
  { w with requestReleases := w.requestReleases + 1
           responseReleases := w.responseReleases + 1 }

/-- The summary `httpRespone` writes from the response `rp`. -/
def summaryOf (rp : fasthttp.Response) : Response :=
  { StatusCode := rp.statusCode
    HTTP11 := rp.isHTTP11
    ContentLength := rp.contentLength
    ContentType := rp.contentType.toStr
    Header := rp.visited.foldl (fun m kv => GoMap.set m kv.1.toStr kv.2.toStr) [] }

/-- The summaries after `fillFirst`, when the response is `rp`. -/
def filled (rp : fasthttp.Response) : List Response → List Response
  | [] => []
  | _ :: rest => summaryOf rp :: rest

/-- The round trip `do` makes for a builder holding the request `rq` and the response
`rp`: the request URI is set from `URI()` and the client is called. -/
def roundTrip (rt : Runtime V) (fr : FastRequest V) (rq : fasthttp.Request)
    (rp : fasthttp.Response) : Option GoError × fasthttp.Response :=
  rt.Do { rq with requestURI := fr.URI rt } rp

/-- The error `do` makes from a status code. -/
def statusError (code : Int) : GoError :=
  ⟨"The FastRequested URL returned error: ".toList ++ fmtD code⟩

/-- The error `do` returns after the round trip `out`. -/
def doError (out : Option GoError × fasthttp.Response) : Option GoError :=
  match out.1 with
  | some err => some err
  | none => if out.2.statusCode ≥ 400 then some (statusError out.2.statusCode) else none

end FastRequest

/-- The computation `r` returns, and what it returns satisfies `P`. -/
def Returns {α : Type} (r : Option α) (P : α → Prop) : Prop := ∃ x, r = some x ∧ P x

/-- A runtime over string parameters whose client answers every request with `out`, and
whose `range` visits the parameters in the order they are stored. -/
def stubRuntime (out : Option GoError × fasthttp.Response) : Runtime Str :=
  { Sprint := id, rangeOrder := id, Do := fun _ _ => out }

/-- A response with the given status code, visited headers and body. -/
def stubResponse (code : Int) (visited : List (Bytes × Bytes)) (body : Bytes) :
    fasthttp.Response :=
  { statusCode := code, isHTTP11 := true, contentLength := (body.len : Int),
    contentType := none, visited := visited, body := body }

/-- A decoder that accepts every body and stores it in the target. -/
def stubUnmarshal (body : Bytes) (_ : Str) : Str × Option GoError := (body.toStr, none)

/-- A serializer that fails on the empty value and encodes every other value as
itself. -/
def stubMarshal (obj : Str) : Bytes × Option GoError :=
  if obj = [] then (none, some ⟨"unsupported".toList⟩) else (some obj, none)

/-- An empty world. -/
def World.start : World := { requestReleases := 0, responseReleases := 0, sent := [] }

/-- The value of the first pair visited under the key `k`. -/
def firstVisited (visited : List (Bytes × Bytes)) (k : Str) : Option Str :=
  (visited.find? (fun kv => decide (kv.1.toStr = k))).map (fun kv => kv.2.toStr)

/-- The value of the last pair visited under the key `k`. -/
def lastVisited (visited : List (Bytes × Bytes)) (k : Str) : Option Str :=
  firstVisited visited.reverse k

/-- The map `m` is the flattening of the visit sequence in which the last value visited
under a key stays: no key is stored twice, the keys stored are the keys visited, and
the value stored under a key is the last one visited under it. -/
def LastWins (visited : List (Bytes × Bytes)) (m : GoMap Str) : Prop :=
  m.keys.Nodup ∧ (∀ k, k ∈ m.keys ↔ ∃ kv ∈ visited, kv.1.toStr = k) ∧
    ∀ k, m.get k = lastVisited visited k

/-- The headers of a response that sets two cookies. -/
def twoCookies : List (Bytes × Bytes) :=
  [(some "Set-Cookie".toList, some "a=1".toList),
   (some "Set-Cookie".toList, some "b=2".toList)]

/-- The strings `key=fmt.Sprint(value)` of a sequence of entries. -/
def pairsOf {V : Type} (Sprint : V → Str) (entries : List (Str × V)) : List Str :=
  entries.map fun kv => kv.1 ++ ['='] ++ Sprint kv.2

/-- Every string of the list with the separator in front of it. -/
def sepAll (sep : Char) : List Str → Str
  | [] => []
  | p :: ps => sep :: p ++ sepAll sep ps

/-- The call `strings.Join(ps, sep)` for a separator of one character. -/
def joinWith (sep : Char) : List Str → Str
  | [] => []
  | p :: ps => p ++ sepAll sep ps

/-- The text `URI` takes over from the URL as the start of the query: the element
`uris[1]` of the split URL if there is one, the empty string if not. -/
def existingQuery (url : Str) : Str :=
  if (Split '?' url).length > 1 then (Split '?' url).getD 1 [] else []

/-- The part of a string after its first `?`; empty if it has none. -/
def queryPart (s : Str) : Str := (s.dropWhile (fun c => c ≠ '?')).drop 1

/-- A `key=value` string cut at its first `=`; without `=` the value is empty. -/
def parsePair (p : Str) : Str × Str :=
  (p.takeWhile (fun c => c ≠ '='), (p.dropWhile (fun c => c ≠ '=')).drop 1)

/-- A query string read as `&`-separated `key=value` pairs. -/
def parseQuery (q : Str) : List (Str × Str) := (Split '&' q).map parsePair

open FastRequest

/-! # Theorems -/

namespace FastRequest

variable {V : Type}

/-- On a builder whose two pooled objects are still held, `do` returns (it does not
panic), keeps both objects, and leaves the release counters alone. -/
theorem do_live (rt : Runtime V) (fr : FastRequest V) (w : World)
    (hq : fr.resq.isSome) (hp : fr.resp.isSome) :
    ∃ e fr1 w1, fr.do_ rt w = some (e, fr1, w1) ∧ fr1.resq.isSome ∧ fr1.resp.isSome ∧
      w1.requestReleases = w.requestReleases ∧ w1.responseReleases = w.responseReleases := by
  obtain ⟨rq, hrq⟩ := Option.isSome_iff_exists.1 hq
  obtain ⟨rp, hrp⟩ := Option.isSome_iff_exists.1 hp
  unfold do_
  cases he : fr.reqe with
  | some e => exact ⟨some e, fr, w, rfl, hq, hp, rfl, rfl⟩
  | none =>
    simp only [hrq, hrp]
    cases hd : (rt.Do { rq with requestURI := fr.URI rt } rp).1 with
    | some err => exact ⟨_, _, _, rfl, rfl, rfl, rfl, rfl⟩
    | none =>
      by_cases hc : (rt.Do { rq with requestURI := fr.URI rt } rp).2.statusCode ≥ 400
      · simp only [hc, if_true]; exact ⟨_, _, _, rfl, rfl, rfl, rfl, rfl⟩
      · simp only [hc, if_false]; exact ⟨_, _, _, rfl, rfl, rfl, rfl, rfl⟩

/-- On a builder whose two pooled objects are still held, the deferred function returns,
adds one to each release counter, sets `resq` to nil and leaves `resp` as it is. -/
theorem cleanup_live (fr : FastRequest V) (w : World)
    (hq : fr.resq.isSome) (hp : fr.resp.isSome) :
    fr.cleanup w = some ({ fr with resq := none },
      { w with requestReleases := w.requestReleases + 1
               responseReleases := w.responseReleases + 1 }) := by
  obtain ⟨rq, hrq⟩ := Option.isSome_iff_exists.1 hq
  obtain ⟨rp, hrp⟩ := Option.isSome_iff_exists.1 hp
  simp [cleanup, hrq, hrp]

theorem fillFirst_live (fr : FastRequest V) (rp : fasthttp.Response) (hs : List Response)
    (hp : fr.resp = some rp) : fr.fillFirst hs = some (filled rp hs) := by
  cases hs with
  | nil => rfl
  | cons h rest => simp [fillFirst, httpRespone, hp, filled, summaryOf]

theorem ToBytes_err (rt : Runtime V) (fr fr1 : FastRequest V) (hs : List Response)
    (w w1 : World) (err : GoError) (h : fr.do_ rt w = some (some err, fr1, w1))
    (hq : fr1.resq.isSome) (hp : fr1.resp.isSome) :
    fr.ToBytes rt hs w = some
      { value := none, e := some err, httpRespones := hs,
        fr := { fr1 with resq := none }, world := released w1 } := by
  simp [ToBytes, h, cleanup_live fr1 w1 hq hp, released]

theorem ToBytes_ok (rt : Runtime V) (fr fr1 : FastRequest V) (hs : List Response)
    (w w1 : World) (rp : fasthttp.Response) (h : fr.do_ rt w = some (none, fr1, w1))
    (hq : fr1.resq.isSome) (hp : fr1.resp = some rp) :
    fr.ToBytes rt hs w = some
      { value := rp.body, e := none, httpRespones := filled rp hs,
        fr := { fr1 with resq := none }, world := released w1 } := by
  have hp1 : fr1.resp.isSome := by simp [hp]
  simp [ToBytes, h, cleanup_live fr1 w1 hq hp1, released, fillFirst_live fr1 rp hs hp, hp]

theorem ToString_err (rt : Runtime V) (fr fr1 : FastRequest V) (hs : List Response)
    (w w1 : World) (err : GoError) (h : fr.do_ rt w = some (some err, fr1, w1))
    (hq : fr1.resq.isSome) (hp : fr1.resp.isSome) :
    fr.ToString rt hs w = some
      { value := [], e := some err, httpRespones := hs,
        fr := { fr1 with resq := none }, world := released w1 } := by
  simp [ToString, h, cleanup_live fr1 w1 hq hp, released]

theorem ToString_ok (rt : Runtime V) (fr fr1 : FastRequest V) (hs : List Response)
    (w w1 : World) (rp : fasthttp.Response) (h : fr.do_ rt w = some (none, fr1, w1))
    (hq : fr1.resq.isSome) (hp : fr1.resp = some rp) :
    fr.ToString rt hs w = some
      { value := rp.body.toStr, e := none, httpRespones := filled rp hs,
        fr := { fr1 with resq := none }, world := released w1 } := by
  have hp1 : fr1.resp.isSome := by simp [hp]
  simp [ToString, h, cleanup_live fr1 w1 hq hp1, released, fillFirst_live fr1 rp hs hp, hp]

theorem ToJSON_err {T : Type} (rt : Runtime V) (U : Bytes → T → T × Option GoError)
    (fr fr1 : FastRequest V) (obj : T) (hs : List Response)
    (w w1 : World) (err : GoError) (h : fr.do_ rt w = some (some err, fr1, w1))
    (hq : fr1.resq.isSome) (hp : fr1.resp.isSome) :
    fr.ToJSON rt U obj hs w = some
      { value := obj, e := some err, httpRespones := hs,
        fr := { fr1 with resq := none }, world := released w1 } := by
  simp [ToJSON, h, cleanup_live fr1 w1 hq hp, released]

theorem ToJSON_ok {T : Type} (rt : Runtime V) (U : Bytes → T → T × Option GoError)
    (fr fr1 : FastRequest V) (obj : T) (hs : List Response)
    (w w1 : World) (rp : fasthttp.Response) (h : fr.do_ rt w = some (none, fr1, w1))
    (hq : fr1.resq.isSome) (hp : fr1.resp = some rp) :
    fr.ToJSON rt U obj hs w = some
      { value := (U rp.body obj).1, e := (U rp.body obj).2, httpRespones := filled rp hs,
        fr := { fr1 with resq := none }, world := released w1 } := by
  have hp1 : fr1.resp.isSome := by simp [hp]
  simp [ToJSON, h, cleanup_live fr1 w1 hq hp1, released, fillFirst_live fr1 rp hs hp, hp]

theorem ToXML_err {T : Type} (rt : Runtime V) (U : Bytes → T → T × Option GoError)
    (fr fr1 : FastRequest V) (v : T) (hs : List Response)
    (w w1 : World) (err : GoError) (h : fr.do_ rt w = some (some err, fr1, w1))
    (hq : fr1.resq.isSome) (hp : fr1.resp.isSome) :
    fr.ToXML rt U v hs w = some
      { value := v, e := some err, httpRespones := hs,
        fr := { fr1 with resq := none }, world := released w1 } := by
  simp [ToXML, h, cleanup_live fr1 w1 hq hp, released]

theorem ToXML_ok {T : Type} (rt : Runtime V) (U : Bytes → T → T × Option GoError)
    (fr fr1 : FastRequest V) (v : T) (hs : List Response)
    (w w1 : World) (rp : fasthttp.Response) (h : fr.do_ rt w = some (none, fr1, w1))
    (hq : fr1.resq.isSome) (hp : fr1.resp = some rp) :
    fr.ToXML rt U v hs w = some
      { value := (U rp.body v).1, e := (U rp.body v).2, httpRespones := filled rp hs,
        fr := { fr1 with resq := none }, world := released w1 } := by
  have hp1 : fr1.resp.isSome := by simp [hp]
  simp [ToXML, h, cleanup_live fr1 w1 hq hp1, released, fillFirst_live fr1 rp hs hp, hp]

theorem do_deferred (rt : Runtime V) (fr : FastRequest V) (w : World) (e : GoError)
    (he : fr.reqe = some e) : fr.do_ rt w = some (some e, fr, w) := by
  simp [do_, he]

theorem do_sent (rt : Runtime V) (fr : FastRequest V) (w : World)
    (rq : fasthttp.Request) (rp : fasthttp.Response)
    (he : fr.reqe = none) (hq : fr.resq = some rq) (hp : fr.resp = some rp) :
    fr.do_ rt w = some (doError (roundTrip rt fr rq rp),
      { fr with resq := some { rq with requestURI := fr.URI rt }
                resp := some (roundTrip rt fr rq rp).2 },
      { w with sent := { rq with requestURI := fr.URI rt } :: w.sent }) := by
  unfold do_ doError roundTrip
  simp only [he, hq, hp]
  cases hd : (rt.Do { rq with requestURI := fr.URI rt } rp).1 with
  | some err => rfl
  | none =>
    by_cases hc : (rt.Do { rq with requestURI := fr.URI rt } rp).2.statusCode ≥ 400
    · simp only [hc, if_true, statusError]
    · simp only [hc, if_false]

theorem fmtD_nonneg (c : Int) (hc : 0 ≤ c) : fmtD c = Nat.toDigits 10 c.toNat := by
  cases c with
  | ofNat n => rfl
  | negSucc n => exact absurd hc (by simp)

end FastRequest

theorem Returns.intro {α : Type} {r : Option α} {P : α → Prop} (x : α) (h : r = some x)
    (hP : P x) : Returns r P := ⟨x, h, hP⟩

/-- C4. On a builder with no deferred error that still holds its pooled objects, when
the transport call succeeds with a status code `c ≥ 400`, each of the four terminal
operations returns an error whose text contains the decimal digits of `c`, leaves the
caller's summaries as they were, and decodes nothing: `ToString` returns the empty
string, `ToBytes` the nil slice, and the target of `ToJSON` and `ToXML` is unchanged. -/
theorem C4_status_error_aborts {V T : Type} (rt : Runtime V)
    (UJ UX : Bytes → T → T × Option GoError) (fr : FastRequest V)
    (rq : fasthttp.Request) (rp : fasthttp.Response) (obj : T) (hs : List Response)
    (w : World) (hq : fr.resq = some rq) (hp : fr.resp = some rp) (he : fr.reqe = none)
    (hd : (fr.roundTrip rt rq rp).1 = none)
    (hc : (fr.roundTrip rt rq rp).2.statusCode ≥ 400) :
    Returns (fr.ToJSON rt UJ obj hs w) (fun x =>
      (∃ err, x.e = some err ∧
        Nat.toDigits 10 (fr.roundTrip rt rq rp).2.statusCode.toNat <:+: err.msg) ∧
      x.httpRespones = hs ∧ x.value = obj) ∧
    Returns (fr.ToString rt hs w) (fun x =>
      (∃ err, x.e = some err ∧
        Nat.toDigits 10 (fr.roundTrip rt rq rp).2.statusCode.toNat <:+: err.msg) ∧
      x.httpRespones = hs ∧ x.value = []) ∧
    Returns (fr.ToBytes rt hs w) (fun x =>
      (∃ err, x.e = some err ∧
        Nat.toDigits 10 (fr.roundTrip rt rq rp).2.statusCode.toNat <:+: err.msg) ∧
      x.httpRespones = hs ∧ x.value = none) ∧
    Returns (fr.ToXML rt UX obj hs w) (fun x =>
      (∃ err, x.e = some err ∧
        Nat.toDigits 10 (fr.roundTrip rt rq rp).2.statusCode.toNat <:+: err.msg) ∧
      x.httpRespones = hs ∧ x.value = obj) := by
  have hdo := do_sent rt fr w rq rp he hq hp
  have herr : doError (fr.roundTrip rt rq rp)
      = some (statusError (fr.roundTrip rt rq rp).2.statusCode) := by
    simp [doError, hd, hc]
  rw [herr] at hdo
  have hmsg : Nat.toDigits 10 (fr.roundTrip rt rq rp).2.statusCode.toNat
      <:+: (statusError (fr.roundTrip rt rq rp).2.statusCode).msg := by
    have h0 : (0 : Int) ≤ (fr.roundTrip rt rq rp).2.statusCode := by omega
    rw [← fmtD_nonneg _ h0]
    exact (List.suffix_append _ _).isInfix
  refine ⟨?_, ?_, ?_, ?_⟩
  · exact Returns.intro _ (ToJSON_err rt UJ fr _ obj hs w _ _ hdo rfl rfl)
      ⟨⟨_, rfl, hmsg⟩, rfl, rfl⟩
  · exact Returns.intro _ (ToString_err rt fr _ hs w _ _ hdo rfl rfl)
      ⟨⟨_, rfl, hmsg⟩, rfl, rfl⟩
  · exact Returns.intro _ (ToBytes_err rt fr _ hs w _ _ hdo rfl rfl)
      ⟨⟨_, rfl, hmsg⟩, rfl, rfl⟩
  · exact Returns.intro _ (ToXML_err rt UX fr _ obj hs w _ _ hdo rfl rfl)
      ⟨⟨_, rfl, hmsg⟩, rfl, rfl⟩

/-- C4 at a client that answers 400 with a body: `ToString` on a new builder returns the
status error and the empty string, and the summary passed in is untouched. -/
theorem C4_status_error_aborts_witness :
    Returns ((NewFastRequest "http://h/p".toList).ToString
        (stubRuntime (none, stubResponse 400 [] (some "oops".toList)))
        [⟨0, false, 0, [], []⟩] World.start) (fun x =>
      (∃ err, x.e = some err ∧ "400".toList <:+: err.msg) ∧
      x.httpRespones = [⟨0, false, 0, [], []⟩] ∧ x.value = []) :=
  (C4_status_error_aborts (stubRuntime (none, stubResponse 400 [] (some "oops".toList)))
    stubUnmarshal stubUnmarshal (NewFastRequest "http://h/p".toList)
    fasthttp.AcquireRequest fasthttp.AcquireResponse [] [⟨0, false, 0, [], []⟩]
    World.start rfl rfl rfl rfl (by decide)).2.1

/-- With a deferred error `e` on a builder that holds its pooled objects, `do` returns
`e` and changes neither the builder nor the world, and each terminal operation returns
`e` with the list of requests handed to the client as it was. -/
theorem deferred_exits {V T : Type} (rt : Runtime V)
    (UJ UX : Bytes → T → T × Option GoError) (fr : FastRequest V) (obj : T)
    (hs : List Response) (w : World) (e : GoError)
    (hq : fr.resq.isSome) (hp : fr.resp.isSome) (he : fr.reqe = some e) :
    fr.do_ rt w = some (some e, fr, w) ∧
    Returns (fr.ToJSON rt UJ obj hs w) (fun x => x.e = some e ∧ x.world.sent = w.sent) ∧
    Returns (fr.ToString rt hs w) (fun x => x.e = some e ∧ x.world.sent = w.sent) ∧
    Returns (fr.ToBytes rt hs w) (fun x => x.e = some e ∧ x.world.sent = w.sent) ∧
    Returns (fr.ToXML rt UX obj hs w) (fun x => x.e = some e ∧ x.world.sent = w.sent) := by
  have hdo := do_deferred rt fr w e he
  exact ⟨hdo,
    Returns.intro _ (ToJSON_err rt UJ fr fr obj hs w w e hdo hq hp) ⟨rfl, rfl⟩,
    Returns.intro _ (ToString_err rt fr fr hs w w e hdo hq hp) ⟨rfl, rfl⟩,
    Returns.intro _ (ToBytes_err rt fr fr hs w w e hdo hq hp) ⟨rfl, rfl⟩,
    Returns.intro _ (ToXML_err rt UX fr fr obj hs w w e hdo hq hp) ⟨rfl, rfl⟩⟩

/-- A failing `SetJSONBody` returns, stores the error, and changes nothing else. -/
theorem SetJSONBody_fails {V J : Type} (Marshal : J → Bytes × Option GoError)
    (fr : FastRequest V) (obj : J) (e : GoError) (hm : (Marshal obj).2 = some e) :
    fr.SetJSONBody Marshal obj = some { fr with reqe := some e } := by
  unfold SetJSONBody
  cases h : Marshal obj with
  | mk byts err =>
    rw [h] at hm
    simp only at hm
    subst hm
    rfl

/-- C5. When `SetJSONBody` is called on a builder that holds its pooled objects with a
value whose serialization fails with `e`, the call returns a builder on which `do`
returns `e` without touching the request (its URI is not set) or the world, and each of
`ToJSON`, `ToString`, `ToBytes`, `ToXML` returns exactly `e` and hands no request to the
transport. -/
theorem C5_encode_error_skips_transport {V J T : Type} (rt : Runtime V)
    (Marshal : J → Bytes × Option GoError) (UJ UX : Bytes → T → T × Option GoError)
    (fr : FastRequest V) (value : J) (obj : T) (hs : List Response) (w : World)
    (e : GoError) (hq : fr.resq.isSome) (hp : fr.resp.isSome)
    (hm : (Marshal value).2 = some e) :
    Returns (fr.SetJSONBody Marshal value) (fun fr1 =>
      fr1.resq = fr.resq ∧
      fr1.do_ rt w = some (some e, fr1, w) ∧
      Returns (fr1.ToJSON rt UJ obj hs w) (fun x => x.e = some e ∧ x.world.sent = w.sent) ∧
      Returns (fr1.ToString rt hs w) (fun x => x.e = some e ∧ x.world.sent = w.sent) ∧
      Returns (fr1.ToBytes rt hs w) (fun x => x.e = some e ∧ x.world.sent = w.sent) ∧
      Returns (fr1.ToXML rt UX obj hs w) (fun x => x.e = some e ∧ x.world.sent = w.sent)) :=
  Returns.intro _ (SetJSONBody_fails Marshal fr value e hm)
    ⟨rfl, deferred_exits rt UJ UX { fr with reqe := some e } obj hs w e hq hp rfl⟩

/-- C5 on a new builder: after `SetJSONBody` of a value the serializer rejects, `ToBytes`
returns the serializer's error and the transport has seen no request. -/
theorem C5_encode_error_skips_transport_witness :
    Returns ((NewFastRequest "http://h/p".toList).SetJSONBody stubMarshal [])
      (fun fr1 => Returns
        (fr1.ToBytes (stubRuntime (none, stubResponse 200 [] none)) [] World.start)
        (fun x => x.e = some ⟨"unsupported".toList⟩ ∧ x.world.sent = [])) :=
  (C5_encode_error_skips_transport (stubRuntime (none, stubResponse 200 [] none))
    stubMarshal stubUnmarshal stubUnmarshal (NewFastRequest "http://h/p".toList) [] []
    [] World.start ⟨"unsupported".toList⟩ rfl rfl rfl).imp
    (fun _ h => ⟨h.1, h.2.2.2.2.2.1⟩)

/-- C6. On a builder that holds its pooled objects, each terminal operation returns, on
every path (whatever the deferred error, the client and the decoder do), with the
count of released requests and the count of released responses each one higher than
before the call. -/
theorem C6_released_exactly_once {V T : Type} (rt : Runtime V)
    (UJ UX : Bytes → T → T × Option GoError) (fr : FastRequest V) (obj : T)
    (hs : List Response) (w : World) (hq : fr.resq.isSome) (hp : fr.resp.isSome) :
    Returns (fr.ToJSON rt UJ obj hs w) (fun x =>
      x.world.requestReleases = w.requestReleases + 1 ∧
      x.world.responseReleases = w.responseReleases + 1) ∧
    Returns (fr.ToString rt hs w) (fun x =>
      x.world.requestReleases = w.requestReleases + 1 ∧
      x.world.responseReleases = w.responseReleases + 1) ∧
    Returns (fr.ToBytes rt hs w) (fun x =>
      x.world.requestReleases = w.requestReleases + 1 ∧
      x.world.responseReleases = w.responseReleases + 1) ∧
    Returns (fr.ToXML rt UX obj hs w) (fun x =>
      x.world.requestReleases = w.requestReleases + 1 ∧
      x.world.responseReleases = w.responseReleases + 1) := by
  obtain ⟨e, fr1, w1, hdo, hq1, hp1, hr1, hr2⟩ := do_live rt fr w hq hp
  have hrel : (released w1).requestReleases = w.requestReleases + 1 ∧
      (released w1).responseReleases = w.responseReleases + 1 := by
    simp [released, hr1, hr2]
  cases e with
  | some err =>
    exact ⟨Returns.intro _ (ToJSON_err rt UJ fr fr1 obj hs w w1 err hdo hq1 hp1) hrel,
      Returns.intro _ (ToString_err rt fr fr1 hs w w1 err hdo hq1 hp1) hrel,
      Returns.intro _ (ToBytes_err rt fr fr1 hs w w1 err hdo hq1 hp1) hrel,
      Returns.intro _ (ToXML_err rt UX fr fr1 obj hs w w1 err hdo hq1 hp1) hrel⟩
  | none =>
    obtain ⟨rp1, hrp1⟩ := Option.isSome_iff_exists.1 hp1
    exact ⟨Returns.intro _ (ToJSON_ok rt UJ fr fr1 obj hs w w1 rp1 hdo hq1 hrp1) hrel,
      Returns.intro _ (ToString_ok rt fr fr1 hs w w1 rp1 hdo hq1 hrp1) hrel,
      Returns.intro _ (ToBytes_ok rt fr fr1 hs w w1 rp1 hdo hq1 hrp1) hrel,
      Returns.intro _ (ToXML_ok rt UX fr fr1 obj hs w w1 rp1 hdo hq1 hrp1) hrel⟩

/-- C6 on a new builder whose client answers 500: `ToXML` returns with each release
counter at one. -/
theorem C6_released_exactly_once_witness :
    Returns ((NewFastRequest "http://h/p".toList).ToXML
        (stubRuntime (none, stubResponse 500 [] none)) stubUnmarshal [] [] World.start)
      (fun x => x.world.requestReleases = 1 ∧ x.world.responseReleases = 1) :=
  (C6_released_exactly_once (stubRuntime (none, stubResponse 500 [] none))
    stubUnmarshal stubUnmarshal (NewFastRequest "http://h/p".toList) [] []
    World.start rfl rfl).2.2.2

/-- C8. On a builder holding the request `rq` and the response `rp`, write `out` for
what the client does with the request `do` would send.  `ToBytes` and `ToString` return,
and for both: the error is non-nil exactly when the builder holds a deferred error, or
`out` carries a transport error, or the status code of `out` is 400 or more; the error
is the deferred one if there is one, else the transport error if there is one, else the
status error; with an error the value is nil (the empty string for `ToString`); without
one the status code is at most 399 and the value is exactly the body of `out` (as text
for `ToString`). -/
theorem C8_bytes_string_error_iff {V : Type} (rt : Runtime V) (fr : FastRequest V)
    (rq : fasthttp.Request) (rp : fasthttp.Response) (hs : List Response) (w : World)
    (hq : fr.resq = some rq) (hp : fr.resp = some rp) :
    Returns (fr.ToBytes rt hs w) (fun x =>
      (x.e ≠ none ↔ fr.reqe ≠ none ∨ (fr.roundTrip rt rq rp).1 ≠ none ∨
        (fr.roundTrip rt rq rp).2.statusCode ≥ 400) ∧
      (∀ e, fr.reqe = some e → x.e = some e) ∧
      (∀ e, fr.reqe = none → (fr.roundTrip rt rq rp).1 = some e → x.e = some e) ∧
      (fr.reqe = none → (fr.roundTrip rt rq rp).1 = none →
        (fr.roundTrip rt rq rp).2.statusCode ≥ 400 →
        x.e = some (statusError (fr.roundTrip rt rq rp).2.statusCode)) ∧
      (x.e ≠ none → x.value = none) ∧
      (x.e = none → (fr.roundTrip rt rq rp).2.statusCode ≤ 399 ∧
        x.value = (fr.roundTrip rt rq rp).2.body)) ∧
    Returns (fr.ToString rt hs w) (fun x =>
      (x.e ≠ none ↔ fr.reqe ≠ none ∨ (fr.roundTrip rt rq rp).1 ≠ none ∨
        (fr.roundTrip rt rq rp).2.statusCode ≥ 400) ∧
      (∀ e, fr.reqe = some e → x.e = some e) ∧
      (∀ e, fr.reqe = none → (fr.roundTrip rt rq rp).1 = some e → x.e = some e) ∧
      (fr.reqe = none → (fr.roundTrip rt rq rp).1 = none →
        (fr.roundTrip rt rq rp).2.statusCode ≥ 400 →
        x.e = some (statusError (fr.roundTrip rt rq rp).2.statusCode)) ∧
      (x.e ≠ none → x.value = []) ∧
      (x.e = none → (fr.roundTrip rt rq rp).2.statusCode ≤ 399 ∧
        x.value = (fr.roundTrip rt rq rp).2.body.toStr)) := by
  have hq1 : fr.resq.isSome := by simp [hq]
  have hp1 : fr.resp.isSome := by simp [hp]
  cases he : fr.reqe with
  | some e0 =>
    have hdo := do_deferred rt fr w e0 he
    exact ⟨Returns.intro _ (ToBytes_err rt fr fr hs w w e0 hdo hq1 hp1)
        ⟨by simp, by simp, by simp, by simp, by simp, by simp⟩,
      Returns.intro _ (ToString_err rt fr fr hs w w e0 hdo hq1 hp1)
        ⟨by simp, by simp, by simp, by simp, by simp, by simp⟩⟩
  | none =>
    have hdo := do_sent rt fr w rq rp he hq hp
    cases hd : (fr.roundTrip rt rq rp).1 with
    | some err =>
      have herr : doError (fr.roundTrip rt rq rp) = some err := by simp [doError, hd]
      rw [herr] at hdo
      exact ⟨Returns.intro _ (ToBytes_err rt fr _ hs w _ err hdo rfl rfl)
          ⟨by simp, by simp, by simp, by simp, by simp, by simp⟩,
        Returns.intro _ (ToString_err rt fr _ hs w _ err hdo rfl rfl)
          ⟨by simp, by simp, by simp, by simp, by simp, by simp⟩⟩
    | none =>
      by_cases hc : (fr.roundTrip rt rq rp).2.statusCode ≥ 400
      · have herr : doError (fr.roundTrip rt rq rp)
            = some (statusError (fr.roundTrip rt rq rp).2.statusCode) := by
          simp [doError, hd, hc]
        rw [herr] at hdo
        exact ⟨Returns.intro _ (ToBytes_err rt fr _ hs w _ _ hdo rfl rfl)
            ⟨by simp [hc], by simp, by simp, by simp, by simp, by simp⟩,
          Returns.intro _ (ToString_err rt fr _ hs w _ _ hdo rfl rfl)
            ⟨by simp [hc], by simp, by simp, by simp, by simp, by simp⟩⟩
      · have herr : doError (fr.roundTrip rt rq rp) = none := by
          simp [doError, hd, hc]
        rw [herr] at hdo
        have h399 : (fr.roundTrip rt rq rp).2.statusCode ≤ 399 := by omega
        exact ⟨Returns.intro _ (ToBytes_ok rt fr _ hs w _ _ hdo rfl rfl)
            ⟨by simp [hc], by simp, by simp, by simp [hc], by simp, by simp [h399]⟩,
          Returns.intro _ (ToString_ok rt fr _ hs w _ _ hdo rfl rfl)
            ⟨by simp [hc], by simp, by simp, by simp [hc], by simp, by simp [h399]⟩⟩

/-- C8 at a client that answers 399 with a body: `ToBytes` on a new builder returns no
error and exactly that body. -/
theorem C8_bytes_string_error_iff_witness :
    Returns ((NewFastRequest "http://h/p".toList).ToBytes
        (stubRuntime (none, stubResponse 399 [] (some "ok".toList))) [] World.start)
      (fun x => x.e = none ∧ x.value = some "ok".toList) :=
  (C8_bytes_string_error_iff (stubRuntime (none, stubResponse 399 [] (some "ok".toList)))
    (NewFastRequest "http://h/p".toList) fasthttp.AcquireRequest fasthttp.AcquireResponse
    [] World.start rfl rfl).1.imp
    (fun x h => ⟨h.1, by
      have h1 : x.e = none := by
        by_contra hne
        exact absurd (h.2.1.1 hne) (by decide)
      exact ⟨h1, (h.2.2.2.2.2.2 h1).2⟩⟩)

/-- One configuration call on a builder that holds its request returns a builder that
still holds it, with the same response and URL; the deferred error is the same unless
the call is a failing `SetJSONBody`, the parameters are the same unless it is a
`SetParam`. -/
theorem Config.call_live {V J : Type} (Marshal : J → Bytes × Option GoError)
    (c : Config V J) (fr : FastRequest V) (hq : fr.resq.isSome) :
    ∃ fr1, c.call Marshal fr = some fr1 ∧ fr1.resq.isSome ∧ fr1.resp = fr.resp ∧
      fr1.url = fr.url ∧ (c.failing Marshal = false → fr1.reqe = fr.reqe) ∧
      (c.isSetParam = false → fr1.params = fr.params) := by
  obtain ⟨rq, hrq⟩ := Option.isSome_iff_exists.1 hq
  cases c with
  | Post =>
    simp only [Config.call, FastRequest.Post, hrq]
    exact ⟨_, rfl, rfl, rfl, rfl, fun _ => rfl, fun _ => rfl⟩
  | Put =>
    simp only [Config.call, FastRequest.Put, hrq]
    exact ⟨_, rfl, rfl, rfl, rfl, fun _ => rfl, fun _ => rfl⟩
  | Get =>
    simp only [Config.call, FastRequest.Get, hrq]
    exact ⟨_, rfl, rfl, rfl, rfl, fun _ => rfl, fun _ => rfl⟩
  | Delete =>
    simp only [Config.call, FastRequest.Delete, hrq]
    exact ⟨_, rfl, rfl, rfl, rfl, fun _ => rfl, fun _ => rfl⟩
  | SetBody byts =>
    simp only [Config.call, FastRequest.SetBody, hrq]
    exact ⟨_, rfl, rfl, rfl, rfl, fun _ => rfl, fun _ => rfl⟩
  | SetHeader key value =>
    simp only [Config.call, FastRequest.SetHeader, hrq]
    exact ⟨_, rfl, rfl, rfl, rfl, fun _ => rfl, fun _ => rfl⟩
  | SetParam key value =>
    exact ⟨_, rfl, hq, rfl, rfl, fun _ => rfl, fun h => by simp [Config.isSetParam] at h⟩
  | SetJSONBody obj =>
    cases hm : Marshal obj with
    | mk byts err =>
      cases err with
      | some e =>
        simp only [Config.call, FastRequest.SetJSONBody, hm]
        exact ⟨_, rfl, hq, rfl, rfl, fun h => by simp [Config.failing, hm] at h,
          fun _ => rfl⟩
      | none =>
        simp only [Config.call, FastRequest.SetJSONBody, hm, hrq]
        exact ⟨_, rfl, rfl, rfl, rfl, fun _ => rfl, fun _ => rfl⟩

/-- A chain of configuration calls on a builder that holds its pooled objects returns a
builder that still holds them, with the same URL; the deferred error is the same when no
call of the chain is a failing `SetJSONBody`, the parameters are the same when none is a
`SetParam`. -/
theorem Config.chain_live {V J : Type} (Marshal : J → Bytes × Option GoError)
    (cs : List (Config V J)) (fr : FastRequest V) (hq : fr.resq.isSome)
    (hp : fr.resp.isSome) :
    ∃ fr1, Config.chain Marshal cs fr = some fr1 ∧ fr1.resq.isSome ∧ fr1.resp.isSome ∧
      fr1.url = fr.url ∧
      ((∀ c ∈ cs, Config.failing Marshal c = false) → fr1.reqe = fr.reqe) ∧
      ((∀ c ∈ cs, Config.isSetParam c = false) → fr1.params = fr.params) := by
  induction cs generalizing fr with
  | nil => exact ⟨fr, rfl, hq, hp, rfl, fun _ => rfl, fun _ => rfl⟩
  | cons c cs ih =>
    obtain ⟨fr1, h1, hq1, hp1, hu1, he1, hs1⟩ := Config.call_live Marshal c fr hq
    obtain ⟨fr2, h2, hq2, hp2, hu2, he2, hs2⟩ := ih fr1 hq1 (by rw [hp1]; exact hp)
    refine ⟨fr2, by simp [Config.chain, h1, h2], hq2, hp2, by rw [hu2, hu1], ?_, ?_⟩
    · intro h
      rw [he2 (fun c hc => h c (List.mem_cons_of_mem _ hc)),
        he1 (h c (List.mem_cons_self _ _))]
    · intro h
      rw [hs2 (fun c hc => h c (List.mem_cons_of_mem _ hc)),
        hs1 (h c (List.mem_cons_self _ _))]

/-- C9. After a `SetJSONBody` that fails with `e` on a builder holding its pooled
objects, every chain of further configuration calls none of which is a failing
`SetJSONBody` (verbs, `SetHeader`, `SetParam`, `SetBody`, a `SetJSONBody` that
succeeds) returns a builder whose deferred error is still `e`, on which each terminal
operation returns `e` and hands no request to the transport. -/
theorem C9_deferred_error_sticky {V J T : Type} (rt : Runtime V)
    (Marshal : J → Bytes × Option GoError) (UJ UX : Bytes → T → T × Option GoError)
    (fr : FastRequest V) (value : J) (cs : List (Config V J)) (obj : T)
    (hs : List Response) (w : World) (e : GoError)
    (hq : fr.resq.isSome) (hp : fr.resp.isSome) (hm : (Marshal value).2 = some e)
    (hcs : ∀ c ∈ cs, Config.failing Marshal c = false) :
    Returns (Config.chain Marshal (Config.SetJSONBody value :: cs) fr) (fun fr1 =>
      fr1.reqe = some e ∧
      Returns (fr1.ToJSON rt UJ obj hs w) (fun x => x.e = some e ∧ x.world.sent = w.sent) ∧
      Returns (fr1.ToString rt hs w) (fun x => x.e = some e ∧ x.world.sent = w.sent) ∧
      Returns (fr1.ToBytes rt hs w) (fun x => x.e = some e ∧ x.world.sent = w.sent) ∧
      Returns (fr1.ToXML rt UX obj hs w) (fun x => x.e = some e ∧ x.world.sent = w.sent)) := by
  obtain ⟨fr1, h1, hq1, hp1, -, he1, -⟩ :=
    Config.chain_live Marshal cs { fr with reqe := some e } hq hp
  have he : fr1.reqe = some e := he1 hcs
  refine Returns.intro fr1 ?_ ⟨he, (deferred_exits rt UJ UX fr1 obj hs w e hq1 hp1 he).2⟩
  simp [Config.chain, Config.call, SetJSONBody_fails Marshal fr value e hm, h1]

/-- C9 on a new builder: a rejected `SetJSONBody`, then `Post`, `SetBody` with a body and
a `SetJSONBody` that succeeds; `ToString` still returns the first error and the
transport has seen no request. -/
theorem C9_deferred_error_sticky_witness :
    Returns (Config.chain stubMarshal
        [Config.SetJSONBody [], Config.Post, Config.SetBody (some "a=1".toList),
          Config.SetJSONBody "1".toList]
        (NewFastRequest "http://h/p".toList : FastRequest Str))
      (fun fr1 => Returns
        (fr1.ToString (stubRuntime (none, stubResponse 200 [] none)) [] World.start)
        (fun x => x.e = some ⟨"unsupported".toList⟩ ∧ x.world.sent = [])) :=
  (C9_deferred_error_sticky (stubRuntime (none, stubResponse 200 [] none)) stubMarshal
    stubUnmarshal stubUnmarshal (NewFastRequest "http://h/p".toList) []
    [Config.Post, Config.SetBody (some "a=1".toList), Config.SetJSONBody "1".toList]
    [] [] World.start ⟨"unsupported".toList⟩ rfl rfl rfl (by decide)).imp
    (fun _ h => ⟨h.1, h.2.2.2.1⟩)

/-- What every terminal operation leaves in the two pointer fields of a builder that
held its pooled objects: `resq` is nil, `resp` is not. -/
theorem pointer_fields_after {V T : Type} (rt : Runtime V)
    (UJ UX : Bytes → T → T × Option GoError) (fr : FastRequest V) (obj : T)
    (hs : List Response) (w : World) (hq : fr.resq.isSome) (hp : fr.resp.isSome) :
    Returns (fr.ToJSON rt UJ obj hs w) (fun x => x.fr.resq = none ∧ x.fr.resp.isSome) ∧
    Returns (fr.ToString rt hs w) (fun x => x.fr.resq = none ∧ x.fr.resp.isSome) ∧
    Returns (fr.ToBytes rt hs w) (fun x => x.fr.resq = none ∧ x.fr.resp.isSome) ∧
    Returns (fr.ToXML rt UX obj hs w) (fun x => x.fr.resq = none ∧ x.fr.resp.isSome) := by
  obtain ⟨e, fr1, w1, hdo, hq1, hp1, -, -⟩ := do_live rt fr w hq hp
  cases e with
  | some err =>
    exact ⟨Returns.intro _ (ToJSON_err rt UJ fr fr1 obj hs w w1 err hdo hq1 hp1) ⟨rfl, hp1⟩,
      Returns.intro _ (ToString_err rt fr fr1 hs w w1 err hdo hq1 hp1) ⟨rfl, hp1⟩,
      Returns.intro _ (ToBytes_err rt fr fr1 hs w w1 err hdo hq1 hp1) ⟨rfl, hp1⟩,
      Returns.intro _ (ToXML_err rt UX fr fr1 obj hs w w1 err hdo hq1 hp1) ⟨rfl, hp1⟩⟩
  | none =>
    obtain ⟨rp1, hrp1⟩ := Option.isSome_iff_exists.1 hp1
    exact ⟨Returns.intro _ (ToJSON_ok rt UJ fr fr1 obj hs w w1 rp1 hdo hq1 hrp1) ⟨rfl, hp1⟩,
      Returns.intro _ (ToString_ok rt fr fr1 hs w w1 rp1 hdo hq1 hrp1) ⟨rfl, hp1⟩,
      Returns.intro _ (ToBytes_ok rt fr fr1 hs w w1 rp1 hdo hq1 hrp1) ⟨rfl, hp1⟩,
      Returns.intro _ (ToXML_ok rt UX fr fr1 obj hs w w1 rp1 hdo hq1 hrp1) ⟨rfl, hp1⟩⟩

/-- C10. After each of the four terminal operations on a new builder whose client
answers 200, the field `resq` is nil and the field `resp` is not nil: it still holds the
response object that went back to the pool. -/
theorem C10_resp_not_nil_after_terminal :
    Returns ((NewFastRequest "http://h/p".toList).ToJSON
        (stubRuntime (none, stubResponse 200 [] (some "1".toList))) stubUnmarshal []
        [] World.start) (fun x => x.fr.resq = none ∧ x.fr.resp ≠ none) ∧
    Returns ((NewFastRequest "http://h/p".toList).ToString
        (stubRuntime (none, stubResponse 200 [] (some "1".toList)))
        [] World.start) (fun x => x.fr.resq = none ∧ x.fr.resp ≠ none) ∧
    Returns ((NewFastRequest "http://h/p".toList).ToBytes
        (stubRuntime (none, stubResponse 200 [] (some "1".toList)))
        [] World.start) (fun x => x.fr.resq = none ∧ x.fr.resp ≠ none) ∧
    Returns ((NewFastRequest "http://h/p".toList).ToXML
        (stubRuntime (none, stubResponse 200 [] (some "1".toList))) stubUnmarshal []
        [] World.start) (fun x => x.fr.resq = none ∧ x.fr.resp ≠ none) :=
  ⟨⟨_, rfl, rfl, by simp⟩, ⟨_, rfl, rfl, by simp⟩, ⟨_, rfl, rfl, by simp⟩,
    ⟨_, rfl, rfl, by simp⟩⟩

theorem GoMap.get_set {T : Type} (m : GoMap T) (k k1 : Str) (v : T) :
    (GoMap.set m k v).get k1 = if k = k1 then some v else m.get k1 := by
  induction m with
  | nil => simp only [GoMap.set, GoMap.get]
  | cons kv rest ih =>
    obtain ⟨k0, v0⟩ := kv
    by_cases h0 : k0 = k
    · subst h0
      by_cases h1 : k0 = k1
      · simp only [GoMap.set, GoMap.get, h1, if_true]
      · simp only [GoMap.set, GoMap.get, h1, if_true, if_false]
    · by_cases h1 : k0 = k1
      · subst h1
        have h2 : ¬ k = k0 := fun h => h0 h.symm
        simp only [GoMap.set, GoMap.get, h0, h2, if_true, if_false]
      · simp only [GoMap.set, GoMap.get, h0, h1, if_false, ih]

theorem GoMap.keys_cons {T : Type} (k : Str) (v : T) (m : GoMap T) :
    GoMap.keys ((k, v) :: m) = k :: GoMap.keys m := rfl

theorem GoMap.mem_keys_set {T : Type} (m : GoMap T) (k k1 : Str) (v : T) :
    k1 ∈ (GoMap.set m k v).keys ↔ k1 = k ∨ k1 ∈ m.keys := by
  induction m with
  | nil =>
    show k1 ∈ [k] ↔ k1 = k ∨ k1 ∈ ([] : List Str)
    simp only [List.mem_singleton, List.not_mem_nil, or_false]
  | cons kv rest ih =>
    obtain ⟨k0, v0⟩ := kv
    by_cases h0 : k0 = k
    · subst h0
      simp only [GoMap.set, if_true, GoMap.keys_cons, List.mem_cons]
      tauto
    · simp only [GoMap.set, h0, if_false, GoMap.keys_cons, List.mem_cons, ih]
      tauto

theorem GoMap.nodup_keys_set {T : Type} (m : GoMap T) (k : Str) (v : T)
    (h : m.keys.Nodup) : (GoMap.set m k v).keys.Nodup := by
  induction m with
  | nil =>
    show [k].Nodup
    exact List.nodup_singleton k
  | cons kv rest ih =>
    obtain ⟨k0, v0⟩ := kv
    rw [GoMap.keys_cons] at h
    have hk := List.nodup_cons.1 h
    by_cases h0 : k0 = k
    · subst h0
      simp only [GoMap.set, if_true, GoMap.keys_cons]
      exact h
    · have hnot : k0 ∉ (GoMap.set rest k v).keys := by
        rw [GoMap.mem_keys_set]
        exact fun hh => hh.elim h0 hk.1
      simp only [GoMap.set, h0, if_false, GoMap.keys_cons]
      exact List.nodup_cons.2 ⟨hnot, ih hk.2⟩

theorem lastVisited_cons (kv : Bytes × Bytes) (visited : List (Bytes × Bytes)) (k : Str) :
    lastVisited (kv :: visited) k
      = (lastVisited visited k).or (if kv.1.toStr = k then some kv.2.toStr else none) := by
  unfold lastVisited firstVisited
  rw [List.reverse_cons, List.find?_append]
  cases List.find? (fun kv => decide (kv.1.toStr = k)) visited.reverse with
  | some x => simp
  | none =>
    by_cases h : kv.1.toStr = k
    · simp [h]
    · simp [h]

/-- The fold of `httpRespone` over the visit sequence, from any map `m`. -/
theorem flatten_fold (visited : List (Bytes × Bytes)) (m : GoMap Str) :
    (m.keys.Nodup →
      (visited.foldl (fun m kv => GoMap.set m kv.1.toStr kv.2.toStr) m).keys.Nodup) ∧
    (∀ k, k ∈ (visited.foldl (fun m kv => GoMap.set m kv.1.toStr kv.2.toStr) m).keys ↔
        (∃ kv ∈ visited, kv.1.toStr = k) ∨ k ∈ m.keys) ∧
    ∀ k, (visited.foldl (fun m kv => GoMap.set m kv.1.toStr kv.2.toStr) m).get k
        = (lastVisited visited k).or (m.get k) := by
  induction visited generalizing m with
  | nil =>
    refine ⟨fun h => h, fun k => ?_, fun k => ?_⟩
    · simp only [List.foldl_nil, List.not_mem_nil, false_and, exists_false, false_or]
    · simp only [List.foldl_nil, lastVisited, firstVisited, List.reverse_nil, List.find?_nil,
        Option.map_none', Option.none_or]
  | cons kv l ih =>
    obtain ⟨ih1, ih2, ih3⟩ := ih (GoMap.set m kv.1.toStr kv.2.toStr)
    refine ⟨fun h => ih1 (GoMap.nodup_keys_set m _ _ h), fun k => ?_, fun k => ?_⟩
    · rw [List.foldl_cons, ih2 k, GoMap.mem_keys_set]
      constructor
      · rintro (⟨x, hx, hk⟩ | hk | hk)
        · exact Or.inl ⟨x, List.mem_cons_of_mem _ hx, hk⟩
        · exact Or.inl ⟨kv, List.mem_cons_self _ _, hk.symm⟩
        · exact Or.inr hk
      · rintro (⟨x, hx, hk⟩ | hk)
        · rcases List.mem_cons.1 hx with hx | hx
          · subst hx
            exact Or.inr (Or.inl hk.symm)
          · exact Or.inl ⟨x, hx, hk⟩
        · exact Or.inr (Or.inr hk)
    · rw [List.foldl_cons, ih3 k, GoMap.get_set, lastVisited_cons]
      cases lastVisited l k with
      | some x => simp
      | none =>
        by_cases h : kv.1.toStr = k
        · simp [h]
        · simp [h]

/-- The header map `httpRespone` writes has the last value visited under each key. -/
theorem summaryOf_lastWins (rp : fasthttp.Response) :
    LastWins rp.visited (summaryOf rp).Header := by
  obtain ⟨h1, h2, h3⟩ := flatten_fold rp.visited []
  refine ⟨h1 List.nodup_nil, fun k => ?_, fun k => ?_⟩
  · have := h2 k
    simpa [GoMap.keys] using this
  · have := h3 k
    simpa [GoMap.get] using this

/-- C7 (as amended). On a builder with no deferred error that holds its pooled objects,
when the transport call succeeds with a status code below 400 and a summary is
supplied, each terminal operation returns with that summary replaced by one whose
`Header` map stores no key twice, stores exactly the keys visited in the response
headers, and stores under each key the last value visited under it; `ToString` and
`ToBytes` then return no error, `ToJSON` and `ToXML` the error of the decoder. -/
theorem C7_header_last_value_wins {V T : Type} (rt : Runtime V)
    (UJ UX : Bytes → T → T × Option GoError) (fr : FastRequest V)
    (rq : fasthttp.Request) (rp : fasthttp.Response) (obj : T) (h : Response)
    (rest : List Response) (w : World)
    (hq : fr.resq = some rq) (hp : fr.resp = some rp) (he : fr.reqe = none)
    (hd : (fr.roundTrip rt rq rp).1 = none)
    (hc : (fr.roundTrip rt rq rp).2.statusCode < 400) :
    Returns (fr.ToJSON rt UJ obj (h :: rest) w) (fun x =>
      x.e = (UJ (fr.roundTrip rt rq rp).2.body obj).2 ∧
      ∃ s, x.httpRespones = s :: rest ∧
        LastWins (fr.roundTrip rt rq rp).2.visited s.Header) ∧
    Returns (fr.ToString rt (h :: rest) w) (fun x =>
      x.e = none ∧
      ∃ s, x.httpRespones = s :: rest ∧
        LastWins (fr.roundTrip rt rq rp).2.visited s.Header) ∧
    Returns (fr.ToBytes rt (h :: rest) w) (fun x =>
      x.e = none ∧
      ∃ s, x.httpRespones = s :: rest ∧
        LastWins (fr.roundTrip rt rq rp).2.visited s.Header) ∧
    Returns (fr.ToXML rt UX obj (h :: rest) w) (fun x =>
      x.e = (UX (fr.roundTrip rt rq rp).2.body obj).2 ∧
      ∃ s, x.httpRespones = s :: rest ∧
        LastWins (fr.roundTrip rt rq rp).2.visited s.Header) := by
  have hdo := do_sent rt fr w rq rp he hq hp
  have herr : doError (fr.roundTrip rt rq rp) = none := by
    have hc1 : ¬ (fr.roundTrip rt rq rp).2.statusCode ≥ 400 := by omega
    simp [doError, hd, hc1]
  rw [herr] at hdo
  have hlw := summaryOf_lastWins (fr.roundTrip rt rq rp).2
  exact ⟨Returns.intro _ (ToJSON_ok rt UJ fr _ obj (h :: rest) w _ _ hdo rfl rfl)
      ⟨rfl, _, rfl, hlw⟩,
    Returns.intro _ (ToString_ok rt fr _ (h :: rest) w _ _ hdo rfl rfl) ⟨rfl, _, rfl, hlw⟩,
    Returns.intro _ (ToBytes_ok rt fr _ (h :: rest) w _ _ hdo rfl rfl) ⟨rfl, _, rfl, hlw⟩,
    Returns.intro _ (ToXML_ok rt UX fr _ obj (h :: rest) w _ _ hdo rfl rfl)
      ⟨rfl, _, rfl, hlw⟩⟩

/-- C7 at a response that sets two cookies: `ToString` succeeds and the summary's header
map has the last value visited under every key. -/
theorem C7_header_last_value_wins_witness :
    Returns ((NewFastRequest "http://h/p".toList).ToString
        (stubRuntime (none, stubResponse 200 twoCookies none))
        [⟨0, false, 0, [], []⟩] World.start) (fun x =>
      x.e = none ∧ ∃ s, x.httpRespones = [s] ∧ LastWins twoCookies s.Header) :=
  (C7_header_last_value_wins (stubRuntime (none, stubResponse 200 twoCookies none))
    stubUnmarshal stubUnmarshal (NewFastRequest "http://h/p".toList)
    fasthttp.AcquireRequest fasthttp.AcquireResponse [] ⟨0, false, 0, [], []⟩ []
    World.start rfl rfl rfl rfl (by decide)).2.1

/-- C7 as stated fails. The response headers visit `Set-Cookie` twice, first with
`a=1`, then with `b=2`; `ToString` succeeds, and the summary's header map stores `b=2`
under `Set-Cookie`, which is not the first value visited, `a=1`. -/
theorem C7_first_value_counterexample :
    Returns ((NewFastRequest "http://h/p".toList).ToString
        (stubRuntime (none, stubResponse 200 twoCookies none))
        [⟨0, false, 0, [], []⟩] World.start) (fun x =>
      x.e = none ∧
      x.httpRespones.map (fun s => s.Header.get "Set-Cookie".toList)
        = [some "b=2".toList] ∧
      firstVisited twoCookies "Set-Cookie".toList = some "a=1".toList) :=
  ⟨_, rfl, rfl, by decide, by decide⟩

theorem uriLoop_pos {V : Type} (Sprint : V → Str) (entries : List (Str × V)) (uri : Str)
    (index : Nat) (h : index > 0) :
    uriLoop Sprint entries uri index = uri ++ sepAll '&' (pairsOf Sprint entries) := by
  induction entries generalizing uri index with
  | nil => simp [uriLoop, pairsOf, sepAll]
  | cons kv rest ih =>
    obtain ⟨key, value⟩ := kv
    have ih1 := ih (uri ++ ['&'] ++ (key ++ ['='] ++ Sprint value)) (index + 1)
      (Nat.succ_pos _)
    simp only [uriLoop, h, if_true, ih1]
    simp [pairsOf, sepAll]

theorem uriLoop_zero {V : Type} (Sprint : V → Str) (entries : List (Str × V)) (uri : Str) :
    uriLoop Sprint entries uri 0 = uri ++ joinWith '&' (pairsOf Sprint entries) := by
  cases entries with
  | nil => simp [uriLoop, pairsOf, joinWith]
  | cons kv rest =>
    obtain ⟨key, value⟩ := kv
    have h1 := uriLoop_pos Sprint rest (uri ++ (key ++ ['='] ++ Sprint value)) 1
      Nat.one_pos
    simp only [uriLoop, gt_iff_lt, lt_self_iff_false, if_false, Nat.zero_add, h1]
    simp [pairsOf, joinWith]

/-- What `URI` returns when parameters are configured: the first element of the split
URL, a `?`, the second element if there is one, and the `key=value` strings of the
entries in the order `range` visits them, joined by `&`. -/
theorem URI_formula {V : Type} (rt : Runtime V) (fr : FastRequest V)
    (h : fr.params.length > 0) :
    fr.URI rt = (Split '?' fr.url).getD 0 [] ++ ['?'] ++ existingQuery fr.url ++
      joinWith '&' (pairsOf rt.Sprint (rt.rangeOrder fr.params)) := by
  simp only [URI, h, if_true, uriLoop_zero, existingQuery]
  simp

theorem Split_ne_nil (sep : Char) (s : Str) : Split sep s ≠ [] := by
  cases s with
  | nil => simp [Split]
  | cons c cs =>
    by_cases h : c = sep
    · simp [Split, h]
    · cases hs : Split sep cs with
      | nil => simp [Split, h, hs]
      | cons p ps => simp [Split, h, hs]

/-- No element of a split string contains the separator. -/
theorem Split_no_sep (sep : Char) (s : Str) : ∀ p ∈ Split sep s, sep ∉ p := by
  induction s with
  | nil => simp [Split]
  | cons c cs ih =>
    by_cases h : c = sep
    · intro p hp
      simp only [Split, h, if_true, List.mem_cons] at hp
      rcases hp with hp | hp
      · subst hp
        exact List.not_mem_nil _
      · exact ih p hp
    · cases hs : Split sep cs with
      | nil => exact absurd hs (Split_ne_nil sep cs)
      | cons q qs =>
        rw [hs] at ih
        intro p hp
        simp only [Split, h, if_false, hs, List.mem_cons] at hp
        have hne : ¬ sep = c := fun hh => h hh.symm
        rcases hp with hp | hp
        · subst hp
          have hq := ih q (List.mem_cons_self _ _)
          simp only [List.mem_cons, not_or]
          exact ⟨hne, hq⟩
        · exact ih p (List.mem_cons_of_mem _ hp)

/-- Splitting at a separator that is written out: the pieces on its left, then the
pieces on its right. -/
theorem Split_append_sep (sep : Char) (a b : Str) :
    Split sep (a ++ sep :: b) = Split sep a ++ Split sep b := by
  induction a with
  | nil => simp [Split]
  | cons c cs ih =>
    by_cases h : c = sep
    · simp [Split, h, ih]
    · cases hs : Split sep cs with
      | nil => exact absurd hs (Split_ne_nil sep cs)
      | cons q qs =>
        rw [hs] at ih
        simp [Split, h, hs, ih]

theorem Split_single (sep : Char) (a : Str) (h : sep ∉ a) : Split sep a = [a] := by
  induction a with
  | nil => simp [Split]
  | cons c cs ih =>
    have hc : ¬ c = sep := fun hh => h (by simp [hh])
    have hcs : sep ∉ cs := fun hh => h (List.mem_cons_of_mem _ hh)
    simp [Split, hc, ih hcs]

theorem Split_sepAll (sep : Char) (p : Str) (ps : List Str) (hp : sep ∉ p)
    (hps : ∀ q ∈ ps, sep ∉ q) : Split sep (p ++ sepAll sep ps) = p :: ps := by
  induction ps generalizing p with
  | nil => simpa [sepAll] using Split_single sep p hp
  | cons q qs ih =>
    have hq := hps q (List.mem_cons_self _ _)
    have hqs : ∀ r ∈ qs, sep ∉ r := fun r hr => hps r (List.mem_cons_of_mem _ hr)
    show Split sep (p ++ sep :: (q ++ sepAll sep qs)) = p :: q :: qs
    rw [Split_append_sep, Split_single sep p hp, ih q hq hqs]
    rfl

/-- Joining strings free of the separator and splitting again gives them back. -/
theorem Split_joinWith (sep : Char) (ps : List Str) (hne : ps ≠ [])
    (hps : ∀ q ∈ ps, sep ∉ q) : Split sep (joinWith sep ps) = ps := by
  cases ps with
  | nil => exact absurd rfl hne
  | cons p qs =>
    exact Split_sepAll sep p qs (hps p (List.mem_cons_self _ _))
      (fun r hr => hps r (List.mem_cons_of_mem _ hr))

theorem queryPart_append (a q : Str) (h : '?' ∉ a) : queryPart (a ++ '?' :: q) = q := by
  induction a with
  | nil => simp [queryPart, List.dropWhile]
  | cons c cs ih =>
    have hc : c ≠ '?' := fun hh => h (by simp [hh])
    have hcs : '?' ∉ cs := fun hh => h (List.mem_cons_of_mem _ hh)
    have := ih hcs
    simpa [queryPart, List.dropWhile, hc] using this

theorem parsePair_pair (k v : Str) (h : '=' ∉ k) : parsePair (k ++ '=' :: v) = (k, v) := by
  induction k with
  | nil => simp [parsePair, List.takeWhile, List.dropWhile]
  | cons c cs ih =>
    have hc : c ≠ '=' := fun hh => h (by simp [hh])
    have hcs : '=' ∉ cs := fun hh => h (List.mem_cons_of_mem _ hh)
    have ih1 := ih hcs
    simp only [parsePair, Prod.mk.injEq] at ih1
    have hd : decide (c ≠ '=') = true := by simpa using hc
    show (List.takeWhile (fun c => decide (c ≠ '=')) (c :: (cs ++ '=' :: v)),
      List.drop 1 (List.dropWhile (fun c => decide (c ≠ '=')) (c :: (cs ++ '=' :: v))))
      = (c :: cs, v)
    rw [List.takeWhile_cons, List.dropWhile_cons]
    simp only [hd, if_true, ih1.1, ih1.2]

theorem head_no_question (url : Str) : '?' ∉ (Split '?' url).getD 0 [] := by
  cases hs : Split '?' url with
  | nil => exact absurd hs (Split_ne_nil _ url)
  | cons p ps =>
    have := Split_no_sep '?' url p (by rw [hs]; exact List.mem_cons_self _ _)
    simpa using this

/-- C1 (as amended). Let the text `URI` takes over from the URL as the start of the
query be empty or end in `&`, let no configured key contain `&` or `=`, and let no
`fmt.Sprint` of a configured value contain `&`.  Then for every order in which `range`
visits the parameter map, the query part of `URI()` (after its first `?`), read as
`&`-separated `key=value` pairs, contains every configured key paired with `fmt.Sprint`
of its value. -/
theorem C1_query_contains_params {V : Type} (rt : Runtime V) (fr : FastRequest V)
    (hperm : (rt.rangeOrder fr.params).Perm fr.params)
    (hex : existingQuery fr.url = [] ∨ ∃ e, existingQuery fr.url = e ++ ['&'])
    (hsep : ∀ kv ∈ fr.params, '&' ∉ kv.1 ∧ '=' ∉ kv.1 ∧ '&' ∉ rt.Sprint kv.2) :
    ∀ kv ∈ fr.params, (kv.1, rt.Sprint kv.2) ∈ parseQuery (queryPart (fr.URI rt)) := by
  intro kv hkv
  have hlen : fr.params.length > 0 := List.length_pos_of_mem hkv
  have hin : kv ∈ rt.rangeOrder fr.params := hperm.mem_iff.2 hkv
  have hpin : kv.1 ++ ['='] ++ rt.Sprint kv.2 ∈ pairsOf rt.Sprint (rt.rangeOrder fr.params) :=
    List.mem_map.2 ⟨kv, hin, rfl⟩
  have hne : pairsOf rt.Sprint (rt.rangeOrder fr.params) ≠ [] :=
    List.ne_nil_of_mem hpin
  have hfree : ∀ q ∈ pairsOf rt.Sprint (rt.rangeOrder fr.params), '&' ∉ q := by
    intro q hq
    obtain ⟨kv1, hkv1, rfl⟩ := List.mem_map.1 hq
    obtain ⟨h1, -, h3⟩ := hsep kv1 (hperm.mem_iff.1 hkv1)
    simp only [List.mem_append, List.mem_singleton, not_or]
    exact ⟨⟨h1, by decide⟩, h3⟩
  have hsplit := Split_joinWith '&' _ hne hfree
  have hq : queryPart (fr.URI rt) = existingQuery fr.url ++
      joinWith '&' (pairsOf rt.Sprint (rt.rangeOrder fr.params)) := by
    rw [URI_formula rt fr hlen]
    have := queryPart_append ((Split '?' fr.url).getD 0 [])
      (existingQuery fr.url ++ joinWith '&' (pairsOf rt.Sprint (rt.rangeOrder fr.params)))
      (head_no_question fr.url)
    simpa using this
  have hmem : kv.1 ++ ['='] ++ rt.Sprint kv.2 ∈ Split '&' (queryPart (fr.URI rt)) := by
    rw [hq]
    rcases hex with h0 | ⟨e, h0⟩
    · rw [h0, List.nil_append, hsplit]
      exact hpin
    · rw [h0]
      have : e ++ ['&'] ++ joinWith '&' (pairsOf rt.Sprint (rt.rangeOrder fr.params))
          = e ++ '&' :: joinWith '&' (pairsOf rt.Sprint (rt.rangeOrder fr.params)) := by
        simp
      rw [this, Split_append_sep, hsplit]
      exact List.mem_append_right _ hpin
  have hpp : parsePair (kv.1 ++ ['='] ++ rt.Sprint kv.2) = (kv.1, rt.Sprint kv.2) := by
    have := parsePair_pair kv.1 (rt.Sprint kv.2) (hsep kv hkv).2.1
    simpa using this
  exact List.mem_map.2 ⟨_, hmem, hpp⟩

/-- C1 on the URL `http://h/p?x=1&` with the parameters `k=v` and `n=2`: the query of
`URI()` contains the pair of `n`. -/
theorem C1_query_contains_params_witness :
    ("n".toList, "2".toList) ∈ parseQuery (queryPart
      ((((NewFastRequest "http://h/p?x=1&".toList).SetParam "k".toList
        "v".toList).SetParam "n".toList "2".toList).URI
        (stubRuntime (none, stubResponse 200 [] none)))) :=
  C1_query_contains_params (stubRuntime (none, stubResponse 200 [] none))
    (((NewFastRequest "http://h/p?x=1&".toList).SetParam "k".toList
      "v".toList).SetParam "n".toList "2".toList)
    (List.Perm.refl _) (Or.inr ⟨"x=1".toList, by decide⟩) (by decide)
    ("n".toList, "2".toList) (by decide)

/-- C1 as stated fails, in two ways. On the URL `http://h/p?x=1` with the parameter
`k=v`, `URI()` is `http://h/p?x=1k=v`, whose query has the one pair `x` with `1k=v` and
no key `k`. On the URL `http://h/p` with the key `a&b` set to `1`, `URI()` is
`http://h/p?a&b=1`, whose query has the pairs `a` with the empty value and `b` with `1`,
and no key `a&b`. -/
theorem C1_query_counterexample :
    (((NewFastRequest "http://h/p?x=1".toList).SetParam "k".toList "v".toList).URI
        (stubRuntime (none, stubResponse 200 [] none)) = "http://h/p?x=1k=v".toList ∧
      parseQuery (queryPart "http://h/p?x=1k=v".toList)
        = [("x".toList, "1k=v".toList)] ∧
      ("k".toList, "v".toList) ∉ parseQuery (queryPart
        (((NewFastRequest "http://h/p?x=1".toList).SetParam "k".toList "v".toList).URI
          (stubRuntime (none, stubResponse 200 [] none))))) ∧
    (((NewFastRequest "http://h/p".toList).SetParam "a&b".toList "1".toList).URI
        (stubRuntime (none, stubResponse 200 [] none)) = "http://h/p?a&b=1".toList ∧
      parseQuery (queryPart "http://h/p?a&b=1".toList)
        = [("a".toList, []), ("b".toList, "1".toList)] ∧
      ("a&b".toList, "1".toList) ∉ parseQuery (queryPart
        (((NewFastRequest "http://h/p".toList).SetParam "a&b".toList "1".toList).URI
          (stubRuntime (none, stubResponse 200 [] none))))) := by
  refine ⟨⟨?_, ?_, ?_⟩, ?_, ?_, ?_⟩ <;> decide

/-- C2. On the URL `http://h/p?a=1?b=2` with the parameter `k=v`, `URI()` returns
`http://h/p?a=1k=v`: the text `?b=2` after the second `?` is gone. The string the claim
describes (the URL up to its first `?`, a `?`, everything after that `?`, then the
pair) is `http://h/p?a=1?b=2k=v`, and `URI()` differs from it. -/
theorem C2_text_after_second_question_mark_lost :
    ((NewFastRequest "http://h/p?a=1?b=2".toList).SetParam "k".toList "v".toList).URI
        (stubRuntime (none, stubResponse 200 [] none)) = "http://h/p?a=1k=v".toList ∧
    "http://h/p?a=1?b=2".toList.takeWhile (fun c => c ≠ '?') ++ ['?'] ++
        queryPart "http://h/p?a=1?b=2".toList ++
        joinWith '&' (pairsOf id [("k".toList, "v".toList)])
      = "http://h/p?a=1?b=2k=v".toList ∧
    ((NewFastRequest "http://h/p?a=1?b=2".toList).SetParam "k".toList "v".toList).URI
        (stubRuntime (none, stubResponse 200 [] none))
      ≠ "http://h/p?a=1?b=2".toList.takeWhile (fun c => c ≠ '?') ++ ['?'] ++
        queryPart "http://h/p?a=1?b=2".toList ++
        joinWith '&' (pairsOf id [("k".toList, "v".toList)]) := by
  refine ⟨?_, ?_, ?_⟩ <;> decide

/-- C3. For every URL `u`, a builder made by `NewFastRequest(u)` and configured by any
chain of calls none of which is `SetParam` returns exactly `u` from `URI()`. -/
theorem C3_no_params_url_unchanged {V J : Type} (rt : Runtime V)
    (Marshal : J → Bytes × Option GoError) (u : Str) (cs : List (Config V J))
    (hcs : ∀ c ∈ cs, Config.isSetParam c = false) :
    Returns (Config.chain Marshal cs (NewFastRequest u)) (fun fr => fr.URI rt = u) := by
  obtain ⟨fr1, h1, -, -, hu, -, hparams⟩ :=
    Config.chain_live Marshal cs (NewFastRequest u : FastRequest V) rfl rfl
  refine Returns.intro fr1 h1 ?_
  have hp : fr1.params = [] := hparams hcs
  simp only [URI, hp, List.length_nil, gt_iff_lt, lt_self_iff_false, if_false, hu]
  rfl

/-- C3 on a URL with two `?`: after `Get` and `SetHeader`, `URI()` is the URL. -/
theorem C3_no_params_url_unchanged_witness :
    Returns (Config.chain stubMarshal
        [Config.Get, Config.SetHeader "Accept".toList "text/html".toList]
        (NewFastRequest "http://h/p?a=1?b=2".toList : FastRequest Str))
      (fun fr => fr.URI (stubRuntime (none, stubResponse 200 [] none))
        = "http://h/p?a=1?b=2".toList) :=
  C3_no_params_url_unchanged (stubRuntime (none, stubResponse 200 [] none)) stubMarshal
    "http://h/p?a=1?b=2".toList [Config.Get, Config.SetHeader "Accept".toList "text/html".toList]
    (by decide)

end requests
